import Mathlib

/-!
Shallow embedding of the proof-of-work ledger in `blockchain/src/lib.rs`
(crate `blockchain` of mimuw-jnp2-rust/project-ch-rust).

Machine integers (`u64`, `i64`) are modelled as `Nat` / `Int`; the only
place overflow matters in the source is `u64::saturating_add`, modelled
explicitly with `U64_MAX`.  Rust `HashMap` is modelled as an association
list with replace-on-insert semantics (`hm_insert` / `hm_get`), which has
exactly the lookup behaviour of `HashMap::insert` / `HashMap::get`.
Panics (`expect`, `panic!`) are modelled with `Option`: `none` is a panic.
`log::warn!` / `log::error!` messages are modelled as error enums so that
the order of the checks is observable.
-/

/-- `u64::MAX`. -/
def U64_MAX : Nat := 18446744073709551615

/-- `u64::saturating_add` (`blockchain/src/lib.rs`, used at line 157). -/
def saturating_add (a b : Nat) : Nat := min (a + b) U64_MAX

/-- Struct `Account` (lib.rs lines 34-39): `address`, `balance`, `pub_key`
are all `u64`. -/
structure Account where
  address : Nat
  balance : Nat
  pub_key : Nat
deriving DecidableEq, Repr

/-- Enum `Data` (lib.rs lines 51-55): payload of a block, either an
account snapshot or a transfer `(from, to, amount, signature)`. -/
inductive Data where
  | account (account : Account)
  | transfer (sender receiver amount signature : Nat)
deriving DecidableEq, Repr

/-- Struct `Block` (lib.rs lines 41-49), fields in source order. -/
structure Block where
  id : Nat
  hash : String
  previous_hash : String
  timestamp : Int
  data : Data
  nonce : Nat
deriving DecidableEq, Repr

/-- Association-list model of `std::collections::HashMap<u64, α>`. -/
abbrev HMap (α : Type) := List (Nat × α)

/-- `HashMap::get`: first (unique) entry with the given key. -/
def hm_get {α : Type} (m : HMap α) (k : Nat) : Option α :=
  match m with
  | [] => none
  | (k', v) :: rest => if k' = k then some v else hm_get rest k

/-- `HashMap::insert`: replace the entry with the given key, or add one. -/
def hm_insert {α : Type} (m : HMap α) (k : Nat) (v : α) : HMap α :=
  match m with
  | [] => [(k, v)]
  | (k', v') :: rest =>
      if k' = k then (k, v) :: rest else (k', v') :: hm_insert rest k v

/-- Struct `Node` (lib.rs lines 27-32). -/
structure Node where
  blocks : List Block
  accounts : HMap Account
  pub_keys : HMap Nat
deriving DecidableEq, Repr

/-- `Node::new` (lib.rs lines 58-64). -/
def Node.new : Node := { blocks := [], accounts := [], pub_keys := [] }

/-! ## SHA-256 (the `sha2::Sha256` digest used by `calculate_hash`) -/

/-- `2^32`, the word modulus of SHA-256. -/
def U32 : Nat := 4294967296

/-- Right rotation of a 32-bit word, written arithmetically: the low
`n` bits move to the top, the rest shift down. -/
def rotr (x n : Nat) : Nat := x / 2 ^ n + x % 2 ^ n * 2 ^ (32 - n)

/-- SHA-256 small sigma 0. -/
def ssig0 (x : Nat) : Nat := (rotr x 7) ^^^ (rotr x 18) ^^^ (x >>> 3)

/-- SHA-256 small sigma 1. -/
def ssig1 (x : Nat) : Nat := (rotr x 17) ^^^ (rotr x 19) ^^^ (x >>> 10)

/-- SHA-256 big sigma 0. -/
def bsig0 (x : Nat) : Nat := (rotr x 2) ^^^ (rotr x 13) ^^^ (rotr x 22)

/-- SHA-256 big sigma 1. -/
def bsig1 (x : Nat) : Nat := (rotr x 6) ^^^ (rotr x 11) ^^^ (rotr x 25)

/-- SHA-256 round constants (decimal). -/
def sha_k : List Nat :=
  [1116352408, 1899447441, 3049323471, 3921009573, 961987163,
   1508970993, 2453635748, 2870763221, 3624381080, 310598401,
   607225278, 1426881987, 1925078388, 2162078206, 2614888103,
   3248222580, 3835390401, 4022224774, 264347078, 604807628,
   770255983, 1249150122, 1555081692, 1996064986, 2554220882,
   2821834349, 2952996808, 3210313671, 3336571891, 3584528711,
   113926993, 338241895, 666307205, 773529912, 1294757372,
   1396182291, 1695183700, 1986661051, 2177026350, 2456956037,
   2730485921, 2820302411, 3259730800, 3345764771, 3516065817,
   3600352804, 4094571909, 275423344, 430227734, 506948616,
   659060556, 883997877, 958139571, 1322822218, 1537002063,
   1747873779, 1955562222, 2024104815, 2227730452, 2361852424,
   2428436474, 2756734187, 3204031479, 3329325298]

/-- SHA-256 initial hash values (decimal). -/
def sha_h0 : List Nat :=
  [1779033703, 3144134277, 1013904242, 2773480762,
   1359893119, 2600822924, 528734635, 1541459225]

/-- Big-endian bytes of `n`, `k` bytes wide. -/
def bytesBE : Nat → Nat → List Nat
  | 0, _ => []
  | k + 1, n => (n / 256 ^ k % 256) :: bytesBE k n

/-- SHA-256 message padding: append `0x80`, zeros, and the 64-bit
big-endian bit length, reaching a multiple of 64 bytes. -/
def sha_pad (msg : List Nat) : List Nat :=
  let z := (64 + 56 - (msg.length + 1) % 64) % 64
  msg ++ 0x80 :: List.replicate z 0 ++ bytesBE 8 (msg.length * 8)

/-- Split a byte list into 64-byte chunks (fuel-indexed). -/
def chunks64 : Nat → List Nat → List (List Nat)
  | 0, _ => []
  | _ + 1, [] => []
  | fuel + 1, l => l.take 64 :: chunks64 fuel (l.drop 64)

/-- Big-endian 4-byte groups to 32-bit words. -/
def toWords : List Nat → List Nat
  | a :: b :: c :: d :: rest => (((a * 256 + b) * 256 + c) * 256 + d) :: toWords rest
  | _ => []

/-- One step of the SHA-256 message-schedule extension. -/
def scheduleStep (w : List Nat) : List Nat :=
  let i := w.length
  w ++ [(w.getD (i - 16) 0 + ssig0 (w.getD (i - 15) 0) +
         w.getD (i - 7) 0 + ssig1 (w.getD (i - 2) 0)) % U32]

/-- Iterate the message-schedule extension. -/
def scheduleMany : Nat → List Nat → List Nat
  | 0, w => w
  | n + 1, w => scheduleMany n (scheduleStep w)

/-- One SHA-256 compression round; state is `[a,b,c,d,e,f,g,h]`.  The
choose and majority functions are written in their mux forms
(`Ch(e,f,g) = g xor (e and (f xor g))`,
`Maj(a,b,c) = (a and b) or (c and (a xor b))`), which agree bitwise
with the textbook xor forms. -/
def compressStep (st : List Nat) (kw : Nat × Nat) : List Nat :=
  match st with
  | [a, b, c, d, e, f, g, h] =>
      let ch := Nat.xor g (Nat.land e (Nat.xor f g))
      let t1 := (h + bsig1 e + ch + kw.1 + kw.2) % U32
      let mj := Nat.lor (Nat.land a b) (Nat.land c (Nat.xor a b))
      let t2 := (bsig0 a + mj) % U32
      [(t1 + t2) % U32, a, b, c, (d + t1) % U32, e, f, g]
  | st => st

/-- Compress one 64-byte chunk into the running hash state. -/
def compressChunk (h : List Nat) (chunk : List Nat) : List Nat :=
  let w := scheduleMany 48 (toWords chunk)
  let st := (List.zip sha_k w).foldl compressStep h
  List.zipWith (fun x y => (x + y) % U32) h st

/-- SHA-256 of a byte list, as a list of 32 bytes. -/
def sha256 (msg : List Nat) : List Nat :=
  let padded := sha_pad msg
  let hs := (chunks64 (padded.length + 1) padded).foldl compressChunk sha_h0
  hs.flatMap (bytesBE 4)

/-! ## Hex encoding/decoding (the `hex` crate) -/

/-- Lowercase hex digit of a value `< 16`, computed from the character
codes (48 is the code of a zero digit, 87 + 10 that of the letter a). -/
def hexChar (n : Nat) : Char :=
  if n < 10 then Char.ofNat (48 + n) else Char.ofNat (87 + min n 15)

/-- `hex::encode`: two lowercase hex digits per byte. -/
def hex_encode (bytes : List Nat) : String :=
  String.mk (bytes.flatMap (fun b => [hexChar (b / 16), hexChar (b % 16)]))

/-- Value of one hex digit, from the character code (`hex` accepts
both cases: decimal digits and the first six letters, small or
capital). -/
def hexVal (c : Char) : Option Nat :=
  let n := c.toNat
  if 48 ≤ n ∧ n ≤ 57 then some (n - 48)
  else if 97 ≤ n ∧ n ≤ 102 then some (n - 87)
  else if 65 ≤ n ∧ n ≤ 70 then some (n - 55)
  else none

/-- `hex::decode` on a character list: pairs of hex digits; odd length or
a non-hex character is an error. -/
def hex_decode_list : List Char → Option (List Nat)
  | [] => some []
  | [_] => none
  | a :: b :: rest => do
      let x ← hexVal a
      let y ← hexVal b
      let r ← hex_decode_list rest
      some ((x * 16 + y) :: r)

/-- `hex::decode` (lib.rs line 219). -/
def hex_decode (s : String) : Option (List Nat) := hex_decode_list s.data

/-! ## Binary rendering of a hash (lib.rs lines 298-304) -/

/-- The eight bits of a byte, most significant first. -/
def bits8 (b : Nat) : List Char :=
  [7, 6, 5, 4, 3, 2, 1, 0].map (fun i => if b / 2 ^ i % 2 = 1 then '1' else '0')

/-- Characters of Rust `format!("{:b}", b)` for a byte `b < 256`: binary
digits without leading zeros, and `"0"` for zero. -/
def byte_binary_chars (b : Nat) : List Char :=
  let l := (bits8 b).dropWhile (fun c => c = '0')
  if l.isEmpty then ['0'] else l

/-- Rust `format!("{:b}", b)` for a byte, as a string. -/
def byte_to_binary (b : Nat) : String := String.mk (byte_binary_chars b)

/-- `hash_to_binary_representation` (lib.rs lines 298-304): concatenate
the per-byte binary renderings. -/
def hash_to_binary_representation (hash : List Nat) : String :=
  String.mk (hash.flatMap byte_binary_chars)

/-- `str::starts_with` on strings. -/
def string_starts_with (s pat : String) : Bool :=
  List.isPrefixOf pat.data s.data

/-- The constant `DIFFICULTY_PREFIX` (lib.rs line 11). -/
def DIFFICULTY_STR : String := "00"

/-! ## `calculate_hash` (lib.rs lines 306-324)

`serde_json::json!` builds a `Value` whose objects are `BTreeMap`s, so
`to_string()` prints the keys in sorted order with no whitespace:
`data`, `id`, `nonce`, `previous_hash`, `timestamp` (and inside an
account: `address`, `balance`, `pub_key`).  `Data` uses serde's default
externally-tagged enum representation.  This rendering was checked
against the crate's mined test fixture
`0000590a7f2735c5ebf696401385dc3f76e33cd4dc3bd7ceeff7be992ada1c98`. -/

/-- serde_json's escaping of one character inside a JSON string. -/
def json_escape_char (c : Char) : String :=
  match c with
  | '"' => "\\\""
  | '\\' => "\\\\"
  | '\n' => "\\n"
  | '\r' => "\\r"
  | '\t' => "\\t"
  | '\x08' => "\\b"
  | '\x0c' => "\\f"
  | c =>
      if c.toNat < 32 then
        "\\u00" ++ String.mk [hexChar (c.toNat / 16), hexChar (c.toNat % 16)]
      else
        String.mk [c]

/-- serde_json's rendering of a string value. -/
def json_string (s : String) : String :=
  "\"" ++ String.join (s.data.map json_escape_char) ++ "\""

/-- serde_json's rendering of a `Data` payload (externally tagged). -/
def data_to_json (data : Data) : String :=
  match data with
  | .account a =>
      "\x7b\"Account\":\x7b\"address\":" ++ toString a.address ++
        ",\"balance\":" ++ toString a.balance ++
        ",\"pub_key\":" ++ toString a.pub_key ++ "\x7d\x7d"
  | .transfer s r amt sig =>
      "\x7b\"Transfer\":[" ++ toString s ++ "," ++ toString r ++ "," ++
        toString amt ++ "," ++ toString sig ++ "]\x7d"

/-- The serialized JSON object hashed by `calculate_hash`. -/
def block_json (id : Nat) (timestamp : Int) (previous_hash : String)
    (data : Data) (nonce : Nat) : String :=
  "\x7b\"data\":" ++ data_to_json data ++
    ",\"id\":" ++ toString id ++
    ",\"nonce\":" ++ toString nonce ++
    ",\"previous_hash\":" ++ json_string previous_hash ++
    ",\"timestamp\":" ++ toString timestamp ++ "\x7d"

/-- UTF-8 bytes of one character. -/
def utf8Char (c : Char) : List Nat :=
  let n := c.toNat
  if n < 128 then [n]
  else if n < 2048 then [192 + n / 64, 128 + n % 64]
  else if n < 65536 then [224 + n / 4096, 128 + n / 64 % 64, 128 + n % 64]
  else [240 + n / 262144, 128 + n / 4096 % 64, 128 + n / 64 % 64, 128 + n % 64]

/-- `str::as_bytes`: UTF-8 bytes of a string. -/
def utf8Encode (s : String) : List Nat := s.data.flatMap utf8Char

/-- `calculate_hash` (lib.rs lines 306-324): SHA-256 of the canonical
JSON rendering of the five fields. -/
def calculate_hash (id : Nat) (timestamp : Int) (previous_hash : String)
    (data : Data) (nonce : Nat) : List Nat :=
  sha256 (utf8Encode (block_json id timestamp previous_hash data nonce))

/-! ## Node operations -/

/-- The constant `GENESIS_ACCOUNT` (lib.rs lines 14-18): address 0,
maximal balance, public key 1234. -/
def GENESIS_ACCOUNT : Account :=
  { address := 0, balance := U64_MAX, pub_key := 1234 }

/-- The hardcoded genesis block built by `Node::genesis`
(lib.rs lines 66-78). -/
def genesis_block : Block :=
  { id := 0
    hash := "aeebad4a796fcc2e15dc4c6061b45ed9b373f26adfc798ca7d2d8cc58182718e"
    previous_hash := "genesis"
    timestamp := 1665411300
    data := .account GENESIS_ACCOUNT
    nonce := 420 }

/-- `Node::genesis` (lib.rs lines 66-78): register the genesis account
and its public key and push the hardcoded genesis block. -/
def genesis (n : Node) : Node :=
  { n with
    pub_keys := hm_insert n.pub_keys 0 1234
    accounts := hm_insert n.accounts 0 GENESIS_ACCOUNT
    blocks := n.blocks ++ [genesis_block] }

/-- The node state after `Node::new()` followed by `genesis()`. -/
def genesis_node : Node := genesis Node.new

/-- `Node::add_account` (lib.rs lines 80-95).  The randomly generated
account is passed as a parameter (the source draws it from `ThreadRng`);
the retry loop terminates exactly when the drawn address is absent from
`accounts`, at which point the account and its public key are inserted. -/
def add_account (n : Node) (account : Account) : Node :=
  { n with
    accounts := hm_insert n.accounts account.address account
    pub_keys := hm_insert n.pub_keys account.address account.pub_key }

/-- `Node::verify_signature` (lib.rs lines 196-198): the placeholder
scheme compares the signature with the public key. -/
def verify_signature (signature pub_key : Nat) : Bool :=
  signature == pub_key

/-- The distinct `error!` messages of `try_add_transfer`
(lib.rs lines 124, 128, 142, 164, 169), as an enum. -/
inductive TransferError where
  | sig_failed
  | invalid_sender
  | invalid_receiver
  | insufficient_balance
  | wrong_params
deriving DecidableEq, Repr

/-- `Node::try_add_transfer` (lib.rs lines 120-171).  The returned
`Option TransferError` is `none` on success (Rust `true`) and carries
the logged failure reason otherwise (Rust `false`); the returned `Node`
is the updated state. -/
def try_add_transfer (n : Node) (transfer : Data) : Option TransferError × Node :=
  match transfer with
  | .transfer sender receiver amount signature =>
      match hm_get n.pub_keys sender with
      | none => (some .invalid_sender, n)
      | some pub_key =>
          if !(verify_signature signature pub_key) then (some .sig_failed, n)
          else
            match hm_get n.accounts sender, hm_get n.accounts receiver with
            | some acc1, some acc2 =>
                if acc1.balance < amount then (some .insufficient_balance, n)
                else
                  (none,
                   { n with
                     accounts :=
                       hm_insert
                         (hm_insert n.accounts sender
                           { address := sender
                             balance := acc1.balance - amount
                             pub_key := acc1.pub_key })
                         receiver
                         { address := receiver
                           balance := saturating_add acc2.balance amount
                           pub_key := acc2.pub_key } })
            | _, _ => (some .invalid_receiver, n)
  | _ => (some .wrong_params, n)

/-- The distinct `warn!` messages of `is_block_valid`
(lib.rs lines 216, 223, 226, 239), as an enum. -/
inductive BlockError where
  | wrong_previous_hash
  | invalid_difficulty
  | wrong_id
  | invalid_hash
deriving DecidableEq, Repr

/-- `Node::is_block_valid` (lib.rs lines 214-243).  `none` models the
`expect` panic on a non-hex stored hash; `some none` is a valid block;
`some (some e)` is the first failing check, in source order. -/
def is_block_valid (block previous_block : Block) : Option (Option BlockError) :=
  if block.previous_hash ≠ previous_block.hash then
    some (some .wrong_previous_hash)
  else
    match hex_decode block.hash with
    | none => none
    | some bytes =>
        if !(string_starts_with (hash_to_binary_representation bytes) DIFFICULTY_STR) then
          some (some .invalid_difficulty)
        else if block.id ≠ previous_block.id + 1 then
          some (some .wrong_id)
        else if hex_encode (calculate_hash block.id block.timestamp
                  block.previous_hash block.data block.nonce) ≠ block.hash then
          some (some .invalid_hash)
        else
          some none

/-- The loop body of `Node::is_chain_valid` from index 1 on: check each
block against its predecessor, stopping at the first failure. -/
def is_chain_valid_from (prev : Block) : List Block → Option Bool
  | [] => some true
  | b :: rest =>
      match is_block_valid b prev with
      | none => none
      | some (some _) => some false
      | some none => is_chain_valid_from b rest

/-- `Node::is_chain_valid` (lib.rs lines 200-212): index 0 is skipped;
every later block is validated against its immediate predecessor. -/
def is_chain_valid : List Block → Option Bool
  | [] => some true
  | b :: rest => is_chain_valid_from b rest

/-- `Node::choose_chain` (lib.rs lines 173-190).  The source takes
`&mut self` but never reads or writes it.  Outer `none` models the
hex-decode panic inside validation; `some none` models the
`panic!("Local and remote chains both are invalid!")`. -/
def choose_chain (loc rem : List Block) : Option (Option (List Block)) :=
  match is_chain_valid loc, is_chain_valid rem with
  | some lv, some rv =>
      if lv && rv then
        some (some (if rem.length ≤ loc.length then loc else rem))
      else if lv then some (some loc)
      else if rv then some (some rem)
      else some none
  | _, _ => none

/-- `Node::get_last_block` (lib.rs lines 192-194): `none` models the
`expect` panic on an empty chain. -/
def get_last_block (n : Node) : Option Block := n.blocks.getLast?

/-- `Node::try_add_block` (lib.rs lines 97-118).  `none` models a panic
(empty chain or non-hex stored hash); otherwise the pair is the Rust
return value together with the updated state. -/
def try_add_block (n : Node) (block : Block) : Option (Bool × Node) :=
  match get_last_block n with
  | none => none
  | some latest =>
      match is_block_valid block latest with
      | none => none
      | some (some _) => some (false, n)
      | some none =>
          match block.data with
          | .account account =>
              some (true,
                { n with
                  accounts := hm_insert n.accounts account.address account
                  pub_keys := hm_insert n.pub_keys account.address account.pub_key
                  blocks := n.blocks ++ [block] })
          | .transfer _ _ _ _ =>
              match try_add_transfer n block.data with
              | (some _, n') => some (false, n')
              | (none, n') => some (true, { n' with blocks := n'.blocks ++ [block] })

/-- The loop body of `Block::mine_block` (lib.rs lines 260-282), with an
explicit fuel bounding the number of iterations of the unbounded search:
`some (nonce, hash)` is the value the loop returns. -/
def mine_block_from (id : Nat) (timestamp : Int) (previous_hash : String)
    (data : Data) : Nat → Nat → Option (Nat × String)
  | _, 0 => none
  | nonce, fuel + 1 =>
      let h := calculate_hash id timestamp previous_hash data nonce
      if string_starts_with (hash_to_binary_representation h) DIFFICULTY_STR then
        some (nonce, hex_encode h)
      else
        mine_block_from id timestamp previous_hash data (nonce + 1) fuel

/-- `Block::mine_block` (lib.rs lines 260-282): start the nonce at 0. -/
def mine_block (id : Nat) (timestamp : Int) (previous_hash : String)
    (data : Data) (fuel : Nat) : Option (Nat × String) :=
  mine_block_from id timestamp previous_hash data 0 fuel

/-! ## Reachable node states

The operations the transport layer may invoke after startup
(`genesis()` having been called once on a fresh node). -/

/-- One mutating operation of the collaborator interface, applied to a
node.  `try_add_block` steps only relate states of non-panicking calls. -/
inductive Step : Node → Node → Prop where
  | acct (n : Node) (account : Account) : Step n (add_account n account)
  | blk (n : Node) (block : Block) (r : Bool) (n' : Node) :
      try_add_block n block = some (r, n') → Step n n'
  | xfer (n : Node) (d : Data) (e : Option TransferError) (n' : Node) :
      try_add_transfer n d = (e, n') → Step n n'

/-- Node states reachable from a fresh node on which `genesis()` has
been called, by any sequence of the three mutating operations. -/
def Reachable (n : Node) : Prop :=
  Relation.ReflTransGen Step genesis_node n

/-! ## Helper lemmas -/

theorem hm_get_insert {α : Type} (m : HMap α) (k : Nat) (v : α) (a : Nat) :
    hm_get (hm_insert m k v) a = if k = a then some v else hm_get m a := by
  induction m with
  | nil => simp [hm_insert, hm_get]
  | cons kv rest ih =>
      obtain ⟨k', v'⟩ := kv
      by_cases hk : k' = k
      · subst hk
        by_cases ha : k' = a <;> simp [hm_insert, hm_get, ha]
      · by_cases ha : k' = a
        · subst ha
          have : ¬ k = k' := fun h => hk h.symm
          simp [hm_insert, hm_get, hk, this]
        · simp [hm_insert, hm_get, hk, ha, ih]

theorem hm_get_insert_self {α : Type} (m : HMap α) (k : Nat) (v : α) :
    hm_get (hm_insert m k v) k = some v := by
  simp [hm_get_insert]

theorem hm_get_insert_ne {α : Type} (m : HMap α) (k : Nat) (v : α) (a : Nat)
    (h : k ≠ a) : hm_get (hm_insert m k v) a = hm_get m a := by
  simp [hm_get_insert, h]

theorem bytesBE_lt (k n : Nat) : ∀ x ∈ bytesBE k n, x < 256 := by
  induction k generalizing n with
  | zero => simp [bytesBE]
  | succ k ih =>
      intro x hx
      simp only [bytesBE, List.mem_cons] at hx
      rcases hx with h | h
      · subst h; exact Nat.mod_lt _ (by norm_num)
      · exact ih n x h

theorem sha256_bytes_lt (msg : List Nat) : ∀ b ∈ sha256 msg, b < 256 := by
  intro b hb
  simp only [sha256, List.mem_flatMap] at hb
  obtain ⟨w, _, hw⟩ := hb
  exact bytesBE_lt 4 w b hw

theorem hexVal_hexChar : ∀ x, x < 16 → hexVal (hexChar x) = some x := by decide

theorem hex_decode_encode (bytes : List Nat) (h : ∀ b ∈ bytes, b < 256) :
    hex_decode (hex_encode bytes) = some bytes := by
  induction bytes with
  | nil => rfl
  | cons b rest ih =>
      have hb : b < 256 := h b (List.mem_cons_self b rest)
      have hhi : b / 16 < 16 := by omega
      have hlo : b % 16 < 16 := Nat.mod_lt _ (by norm_num)
      have hrest : hex_decode (hex_encode rest) = some rest :=
        ih (fun x hx => h x (List.mem_cons_of_mem b hx))
      simp only [hex_decode, hex_encode] at hrest ⊢
      simp only [List.flatMap_cons, List.cons_append, List.nil_append]
      simp only [hex_decode_list, hexVal_hexChar _ hhi, hexVal_hexChar _ hlo,
        Option.bind_eq_bind, Option.some_bind, hrest, Option.bind_some]
      have : b / 16 * 16 + b % 16 = b := by omega
      simp [this]

/-- On every failure of `try_add_transfer` the returned node is the
input node. -/
theorem try_add_transfer_fail_eq (n : Node) (d : Data) (e : TransferError)
    (n' : Node) (h : try_add_transfer n d = (some e, n')) : n' = n := by
  cases d with
  | account a => simp_all [try_add_transfer]
  | transfer s r amt sig =>
      simp only [try_add_transfer] at h
      cases hk : hm_get n.pub_keys s with
      | none => simp [hk] at h; exact h.2.symm
      | some pk =>
          simp only [hk] at h
          by_cases hv : verify_signature sig pk
          · simp only [hv, Bool.not_true, Bool.false_eq_true, if_false] at h
            cases h1 : hm_get n.accounts s with
            | none => simp [h1] at h; exact h.2.symm
            | some acc1 =>
                cases h2 : hm_get n.accounts r with
                | none => simp [h1, h2] at h; exact h.2.symm
                | some acc2 =>
                    simp only [h1, h2] at h
                    by_cases hbal : acc1.balance < amt
                    · simp [hbal] at h; exact h.2.symm
                    · simp [hbal] at h
          · simp [hv] at h; exact h.2.symm

/-- `try_add_transfer` never touches the chain. -/
theorem try_add_transfer_blocks (n : Node) (d : Data) :
    ((try_add_transfer n d).2).blocks = n.blocks := by
  cases d with
  | account a => rfl
  | transfer s r amt sig =>
      simp only [try_add_transfer]
      cases hk : hm_get n.pub_keys s with
      | none => rfl
      | some pk =>
          by_cases hv : verify_signature sig pk
          · simp only [hv, Bool.not_true, Bool.false_eq_true, if_false]
            cases h1 : hm_get n.accounts s with
            | none => rfl
            | some acc1 =>
                cases h2 : hm_get n.accounts r with
                | none => rfl
                | some acc2 =>
                    by_cases hbal : acc1.balance < amt <;> simp [hbal]
          · simp [hv]

/-- `try_add_transfer` never touches the public-key registry. -/
theorem try_add_transfer_pub_keys (n : Node) (d : Data) :
    ((try_add_transfer n d).2).pub_keys = n.pub_keys := by
  cases d with
  | account a => rfl
  | transfer s r amt sig =>
      simp only [try_add_transfer]
      cases hk : hm_get n.pub_keys s with
      | none => rfl
      | some pk =>
          by_cases hv : verify_signature sig pk
          · simp only [hv, Bool.not_true, Bool.false_eq_true, if_false]
            cases h1 : hm_get n.accounts s with
            | none => rfl
            | some acc1 =>
                cases h2 : hm_get n.accounts r with
                | none => rfl
                | some acc2 =>
                    by_cases hbal : acc1.balance < amt <;> simp [hbal]
          · simp [hv]

/-- A block accepted by the Validator stores exactly the hex encoding of
the digest recomputed over its other fields (check 4). -/
theorem is_block_valid_hash (b p : Block) (h : is_block_valid b p = some none) :
    hex_encode (calculate_hash b.id b.timestamp b.previous_hash b.data b.nonce)
      = b.hash := by
  simp only [is_block_valid] at h
  by_cases h1 : b.previous_hash = p.hash
  · simp only [h1, ne_eq, not_true_eq_false, if_false] at h
    cases hd : hex_decode b.hash with
    | none => simp [hd] at h
    | some bytes =>
        simp only [hd] at h
        by_cases h2 : string_starts_with (hash_to_binary_representation bytes)
            DIFFICULTY_STR
        · simp only [h2, Bool.not_true, Bool.false_eq_true, if_false] at h
          by_cases h3 : b.id = p.id + 1
          · simp only [h3, ne_eq, not_true_eq_false, if_false] at h
            by_cases h4 : hex_encode (calculate_hash b.id b.timestamp
                b.previous_hash b.data b.nonce) = b.hash
            · exact h4
            · have h4' : ¬ hex_encode (calculate_hash (p.id + 1) b.timestamp
                  p.hash b.data b.nonce) = b.hash := by
                rw [← h1, ← h3]; exact h4
              simp [h4'] at h
          · simp [h3] at h
        · simp [h2] at h
  · simp [h1] at h

/-- On a `false` return of `try_add_block` the node is unchanged. -/
theorem try_add_block_false_eq (n : Node) (b : Block) (n' : Node)
    (h : try_add_block n b = some (false, n')) : n' = n := by
  simp only [try_add_block] at h
  cases hl : get_last_block n with
  | none => simp [hl] at h
  | some latest =>
      simp only [hl] at h
      cases hv : is_block_valid b latest with
      | none => simp [hv] at h
      | some o =>
          cases o with
          | some e => simp [hv] at h; exact h.symm
          | none =>
              simp only [hv] at h
              cases hd : b.data with
              | account a => simp [hd] at h
              | transfer s r amt sig =>
                  simp only [hd] at h
                  cases ht : try_add_transfer n (Data.transfer s r amt sig) with
                  | mk e m =>
                      cases e with
                      | none => simp [ht] at h
                      | some err =>
                          simp only [ht] at h
                          simp only [Option.some.injEq, Prod.mk.injEq] at h
                          have := try_add_transfer_fail_eq n
                            (Data.transfer s r amt sig) err m ht
                          rw [← h.2, this]

/-- Characterization of a successful `try_add_transfer`: every check
passed and the node is updated by the two account writes, sender first,
receiver second. -/
theorem try_add_transfer_ok (n : Node) (s r amt sig : Nat) (n' : Node)
    (h : try_add_transfer n (.transfer s r amt sig) = (none, n')) :
    ∃ pk acc1 acc2,
      hm_get n.pub_keys s = some pk ∧ verify_signature sig pk = true ∧
      hm_get n.accounts s = some acc1 ∧ hm_get n.accounts r = some acc2 ∧
      ¬ acc1.balance < amt ∧
      n' = { n with
             accounts :=
               hm_insert
                 (hm_insert n.accounts s
                   { address := s
                     balance := acc1.balance - amt
                     pub_key := acc1.pub_key })
                 r
                 { address := r
                   balance := saturating_add acc2.balance amt
                   pub_key := acc2.pub_key } } := by
  simp only [try_add_transfer] at h
  cases hk : hm_get n.pub_keys s with
  | none => simp [hk] at h
  | some pk =>
      simp only [hk] at h
      by_cases hv : verify_signature sig pk
      · simp only [hv, Bool.not_true, Bool.false_eq_true, if_false] at h
        cases h1 : hm_get n.accounts s with
        | none => simp [h1] at h
        | some acc1 =>
            cases h2 : hm_get n.accounts r with
            | none => simp [h1, h2] at h
            | some acc2 =>
                simp only [h1, h2] at h
                by_cases hbal : acc1.balance < amt
                · simp [hbal] at h
                · simp only [hbal, if_false, Prod.mk.injEq] at h
                  exact ⟨pk, acc1, acc2, rfl, hv, rfl, rfl, hbal, h.2.symm⟩
      · simp [hv] at h

/-- C1 (amended): when an accepted transfer has distinct sender and
receiver, the sender's balance decreases by `amount` (and adding the
amount back restores the old balance) and the receiver's balance becomes
the saturating sum; the receiver equation holds for every accepted
transfer, including `sender == receiver`, where the receiver write is
the one that survives. -/
theorem try_add_transfer_conservation (n : Node) (s r amt sig : Nat)
    (n' : Node) (acc1 acc2 : Account)
    (hs : hm_get n.accounts s = some acc1)
    (hr : hm_get n.accounts r = some acc2)
    (h : try_add_transfer n (.transfer s r amt sig) = (none, n')) :
    hm_get n'.accounts r =
      some { address := r
             balance := saturating_add acc2.balance amt
             pub_key := acc2.pub_key } ∧
    (s ≠ r →
      hm_get n'.accounts s =
        some { address := s
               balance := acc1.balance - amt
               pub_key := acc1.pub_key } ∧
      (acc1.balance - amt) + amt = acc1.balance) := by
  obtain ⟨pk, a1, a2, hpk, hv, h1, h2, hbal, hn'⟩ :=
    try_add_transfer_ok n s r amt sig n' h
  rw [hs] at h1
  rw [hr] at h2
  injection h1 with h1
  injection h2 with h2
  subst h1
  subst h2
  subst hn'
  refine ⟨?_, ?_⟩
  · simp [hm_get_insert_self]
  · intro hne
    constructor
    · have hrs : r ≠ s := fun hh => hne hh.symm
      rw [hm_get_insert_ne _ _ _ _ hrs, hm_get_insert_self]
    · omega

/-- C1 (counterexample node): one registered account, address 5,
balance 10, public key 7. -/
def c1_node : Node :=
  { blocks := []
    accounts := [(5, { address := 5, balance := 10, pub_key := 7 })]
    pub_keys := [(5, 7)] }

/-- C1 (counterexample): the self-transfer of amount 1 from address 5 to
itself is accepted, yet the sender's balance after is 11, not
`10 - 1 = 9` — the receiver write overwrites the sender write, so the
claimed sender equation fails when `sender == receiver`. -/
theorem try_add_transfer_self_counterexample :
    (try_add_transfer c1_node (.transfer 5 5 1 7)).1 = none ∧
    hm_get ((try_add_transfer c1_node (.transfer 5 5 1 7)).2).accounts 5 =
      some { address := 5, balance := 11, pub_key := 7 } ∧
    (11 : Nat) ≠ 10 - 1 := by decide

/-- C1 (witness node): two registered accounts with balances 10 and 20. -/
def c1w_node : Node :=
  { blocks := []
    accounts := [(1, { address := 1, balance := 10, pub_key := 7 }),
                 (2, { address := 2, balance := 20, pub_key := 8 })]
    pub_keys := [(1, 7), (2, 8)] }

/-- C1 (witness state): the node after transferring 4 from 1 to 2. -/
def c1w_after : Node :=
  { blocks := []
    accounts := [(1, { address := 1, balance := 6, pub_key := 7 }),
                 (2, { address := 2, balance := 24, pub_key := 8 })]
    pub_keys := [(1, 7), (2, 8)] }

/-- C1 (witness): the conservation theorem applied to the concrete
accepted transfer of 4 from address 1 (balance 10) to address 2
(balance 20). -/
theorem try_add_transfer_conservation_witness :
    try_add_transfer c1w_node (.transfer 1 2 4 7) = (none, c1w_after) ∧
    hm_get c1w_after.accounts 2 =
      some { address := 2, balance := saturating_add 20 4, pub_key := 8 } ∧
    hm_get c1w_after.accounts 1 =
      some { address := 1, balance := 10 - 4, pub_key := 7 } ∧
    (10 - 4) + 4 = 10 := by
  have h : try_add_transfer c1w_node (.transfer 1 2 4 7) = (none, c1w_after) := by
    decide
  have main := try_add_transfer_conservation c1w_node 1 2 4 7 c1w_after
    { address := 1, balance := 10, pub_key := 7 }
    { address := 2, balance := 20, pub_key := 8 }
    (by decide) (by decide) h
  exact ⟨h, main.1, (main.2 (by decide)).1, (main.2 (by decide)).2⟩

/-- C3: on a `Transfer` payload, `try_add_transfer` fails exactly when
the sender key is absent, the signature does not verify, an account
lookup fails, or the sender balance is below the amount; every failure
leaves the node unchanged; and the reported reason is the first failing
check in source order. -/
theorem try_add_transfer_rejection (n : Node) (s r amt sig : Nat)
    (e : Option TransferError) (n' : Node)
    (h : try_add_transfer n (.transfer s r amt sig) = (e, n')) :
    (e.isSome → n' = n) ∧
    (e.isSome ↔
      (hm_get n.pub_keys s = none ∨
       (∃ pk, hm_get n.pub_keys s = some pk ∧ verify_signature sig pk = false) ∨
       hm_get n.accounts s = none ∨ hm_get n.accounts r = none ∨
       (∃ acc1, hm_get n.accounts s = some acc1 ∧ acc1.balance < amt))) ∧
    (hm_get n.pub_keys s = none → e = some .invalid_sender) ∧
    (∀ pk, hm_get n.pub_keys s = some pk → verify_signature sig pk = false →
      e = some .sig_failed) ∧
    (∀ pk, hm_get n.pub_keys s = some pk → verify_signature sig pk = true →
      (hm_get n.accounts s = none ∨ hm_get n.accounts r = none) →
      e = some .invalid_receiver) ∧
    (∀ pk acc1 acc2, hm_get n.pub_keys s = some pk →
      verify_signature sig pk = true →
      hm_get n.accounts s = some acc1 → hm_get n.accounts r = some acc2 →
      acc1.balance < amt → e = some .insufficient_balance) := by
  simp only [try_add_transfer] at h
  cases hk : hm_get n.pub_keys s with
  | none =>
      simp only [hk, Prod.mk.injEq] at h
      obtain ⟨he, hn⟩ := h
      subst he
      subst hn
      refine ⟨fun _ => rfl, by simp, fun _ => rfl, ?_, ?_, ?_⟩
      · intro pk hpk
        exact Option.noConfusion hpk
      · intro pk hpk
        exact Option.noConfusion hpk
      · intro pk acc1 acc2 hpk
        exact Option.noConfusion hpk
  | some pk =>
      simp only [hk] at h
      by_cases hv : verify_signature sig pk
      · simp only [hv, Bool.not_true, Bool.false_eq_true, if_false] at h
        cases h1 : hm_get n.accounts s with
        | none =>
            simp only [h1, Prod.mk.injEq] at h
            obtain ⟨he, hn⟩ := h
            subst he
            subst hn
            refine ⟨fun _ => rfl, by simp, ?_, ?_, fun _ _ _ _ => rfl, ?_⟩
            · intro hnone
              exact Option.noConfusion hnone
            · intro pk' hpk hv'
              injection hpk with hpk
              subst hpk
              rw [hv] at hv'
              exact Bool.noConfusion hv'
            · intro pk' acc1 acc2 hpk hv' hacc1
              exact Option.noConfusion hacc1
        | some acc1 =>
            cases h2 : hm_get n.accounts r with
            | none =>
                simp only [h1, h2, Prod.mk.injEq] at h
                obtain ⟨he, hn⟩ := h
                subst he
                subst hn
                refine ⟨fun _ => rfl, by simp, ?_, ?_, fun _ _ _ _ => rfl, ?_⟩
                · intro hnone
                  exact Option.noConfusion hnone
                · intro pk' hpk hv'
                  injection hpk with hpk
                  subst hpk
                  rw [hv] at hv'
                  exact Bool.noConfusion hv'
                · intro pk' acc1' acc2 hpk hv' hacc1 hacc2
                  exact Option.noConfusion hacc2
            | some acc2 =>
                simp only [h1, h2] at h
                by_cases hbal : acc1.balance < amt
                · simp only [hbal, if_true, Prod.mk.injEq] at h
                  obtain ⟨he, hn⟩ := h
                  subst he
                  subst hn
                  refine ⟨fun _ => rfl, ?_, ?_, ?_, ?_,
                    fun _ _ _ _ _ _ _ _ => rfl⟩
                  · simp only [Option.isSome_some, true_iff]
                    exact Or.inr (Or.inr (Or.inr (Or.inr ⟨acc1, rfl, hbal⟩)))
                  · intro hnone
                    exact Option.noConfusion hnone
                  · intro pk' hpk hv'
                    injection hpk with hpk
                    subst hpk
                    rw [hv] at hv'
                    exact Bool.noConfusion hv'
                  · intro pk' hpk hv' hor
                    rcases hor with hh | hh
                    · exact Option.noConfusion hh
                    · exact Option.noConfusion hh
                · simp only [hbal, if_false, Prod.mk.injEq] at h
                  obtain ⟨he, hn⟩ := h
                  subst he
                  refine ⟨?_, ?_, ?_, ?_, ?_, ?_⟩
                  · intro hs
                    simp at hs
                  · simp only [Option.isSome_none, Bool.false_eq_true, false_iff]
                    push_neg
                    refine ⟨by simp, ?_, by simp, by simp, ?_⟩
                    · intro pk' hpk
                      injection hpk with hpk
                      subst hpk
                      simp [hv]
                    · intro acc1' hacc1
                      injection hacc1 with hacc1
                      subst hacc1
                      omega
                  · intro hnone
                    exact Option.noConfusion hnone
                  · intro pk' hpk hv'
                    injection hpk with hpk
                    subst hpk
                    rw [hv] at hv'
                    exact Bool.noConfusion hv'
                  · intro pk' hpk hv' hor
                    rcases hor with hh | hh
                    · exact Option.noConfusion hh
                    · exact Option.noConfusion hh
                  · intro pk' acc1' acc2' hpk hv' hacc1 hacc2 hlt
                    injection hacc1 with hacc1
                    subst hacc1
                    exact absurd hlt hbal
      · simp only [hv, Bool.not_false, if_true, Prod.mk.injEq] at h
        obtain ⟨he, hn⟩ := h
        subst he
        subst hn
        simp only [Bool.not_eq_true] at hv
        refine ⟨fun _ => rfl, ?_, ?_, fun _ _ _ => rfl, ?_, ?_⟩
        · simp only [Option.isSome_some, true_iff]
          exact Or.inr (Or.inl ⟨pk, rfl, hv⟩)
        · intro hnone
          exact Option.noConfusion hnone
        · intro pk' hpk hv' hor
          injection hpk with hpk
          subst hpk
          rw [hv] at hv'
          exact Bool.noConfusion hv'
        · intro pk' acc1 acc2 hpk hv' hacc1 hacc2 hlt
          injection hpk with hpk
          subst hpk
          rw [hv] at hv'
          exact Bool.noConfusion hv'

/-- C3 (witness node): account 1 has balance 0, account 2 has
balance 5; both keys registered. -/
def c3_node : Node :=
  { blocks := []
    accounts := [(1, { address := 1, balance := 0, pub_key := 7 }),
                 (2, { address := 2, balance := 5, pub_key := 8 })]
    pub_keys := [(1, 7), (2, 8)] }

/-- C3 (witness): the spec's concrete scenario — a transfer from an
address with balance 0 for amount 1 is rejected with the
insufficient-balance reason and the ledger is unchanged. -/
theorem try_add_transfer_rejection_witness :
    (try_add_transfer c3_node (.transfer 1 2 1 7)).1 =
      some TransferError.insufficient_balance ∧
    (try_add_transfer c3_node (.transfer 1 2 1 7)).2 = c3_node := by
  have main := try_add_transfer_rejection c3_node 1 2 1 7
    (try_add_transfer c3_node (.transfer 1 2 1 7)).1
    (try_add_transfer c3_node (.transfer 1 2 1 7)).2
    Prod.mk.eta.symm
  exact ⟨by decide, main.1 (by decide)⟩

/-- Characterization of a `true` return of `try_add_block`: the block is
appended, the payload effects are committed, and the block was validated
against the previous head. -/
theorem try_add_block_true_spec (n : Node) (b : Block) (n' : Node)
    (h : try_add_block n b = some (true, n')) :
    n'.blocks = n.blocks ++ [b] ∧
    ((∃ a, b.data = .account a ∧
        n'.accounts = hm_insert n.accounts a.address a ∧
        n'.pub_keys = hm_insert n.pub_keys a.address a.pub_key) ∨
     (∃ m, try_add_transfer n b.data = (none, m) ∧
        n'.accounts = m.accounts ∧ n'.pub_keys = m.pub_keys)) ∧
    (∃ latest, get_last_block n = some latest ∧
        is_block_valid b latest = some none) := by
  simp only [try_add_block] at h
  cases hl : get_last_block n with
  | none => simp [hl] at h
  | some latest =>
      simp only [hl] at h
      cases hv : is_block_valid b latest with
      | none => simp [hv] at h
      | some o =>
          cases o with
          | some e => simp [hv] at h
          | none =>
              simp only [hv] at h
              cases hd : b.data with
              | account a =>
                  simp only [hd, Option.some.injEq, Prod.mk.injEq, true_and] at h
                  subst h
                  exact ⟨rfl, Or.inl ⟨a, rfl, rfl, rfl⟩, latest, rfl, hv⟩
              | transfer s r amt sig =>
                  simp only [hd] at h
                  cases ht : try_add_transfer n (Data.transfer s r amt sig) with
                  | mk e m =>
                      simp only [ht] at h
                      cases e with
                      | some err => simp at h
                      | none =>
                          simp only [Option.some.injEq, Prod.mk.injEq,
                            true_and] at h
                          subst h
                          have hm := try_add_transfer_blocks n
                            (Data.transfer s r amt sig)
                          rw [ht] at hm
                          simp only [] at hm
                          refine ⟨?_, Or.inr ⟨m, rfl, rfl, rfl⟩,
                            latest, rfl, hv⟩
                          simp only []
                          rw [hm]

/-- C2: `try_add_block` is atomic — a `false` return leaves the chain and
both maps exactly as before, and a `true` return appends exactly the
argument block and commits its payload (account insertion, or the
successful transfer's account updates). -/
theorem try_add_block_atomic (n : Node) (b : Block) :
    (∀ n', try_add_block n b = some (false, n') → n' = n) ∧
    (∀ n', try_add_block n b = some (true, n') →
      n'.blocks = n.blocks ++ [b] ∧
      (∀ a, b.data = .account a →
        n'.accounts = hm_insert n.accounts a.address a ∧
        n'.pub_keys = hm_insert n.pub_keys a.address a.pub_key) ∧
      (∀ s r amt sig, b.data = .transfer s r amt sig →
        ∃ m, try_add_transfer n b.data = (none, m) ∧
          n'.accounts = m.accounts ∧ n'.pub_keys = m.pub_keys)) := by
  constructor
  · intro n' h
    exact try_add_block_false_eq n b n' h
  · intro n' h
    obtain ⟨hblocks, hpayload, -⟩ := try_add_block_true_spec n b n' h
    refine ⟨hblocks, ?_, ?_⟩
    · intro a ha
      rcases hpayload with ⟨a', ha', hacc, hpk⟩ | ⟨m, hm, -, -⟩
      · rw [ha] at ha'
        injection ha' with ha'
        subst ha'
        exact ⟨hacc, hpk⟩
      · rw [ha] at hm
        simp [try_add_transfer] at hm
    · intro s r amt sig ha
      rcases hpayload with ⟨a', ha', -, -⟩ | ⟨m, hm, hacc, hpk⟩
      · rw [ha] at ha'
        cases ha'
      · exact ⟨m, hm, hacc, hpk⟩

/-- The mined fixture block: at timestamp 1665548413 the very first
nonce 0 already satisfies the difficulty, with digest
`000093311ff0d03a2b7001daaff42c05637e9c926879b7b820050d4342f19d03`
(checked against `sha2`/`serde_json` behaviour). -/
def fixture_block : Block :=
  { id := 1
    hash := "000093311ff0d03a2b7001daaff42c05637e9c926879b7b820050d4342f19d03"
    previous_hash :=
      "aeebad4a796fcc2e15dc4c6061b45ed9b373f26adfc798ca7d2d8cc58182718e"
    timestamp := 1665548413
    data := .account { address := 1, balance := 0, pub_key := 1111 }
    nonce := 0 }

/-- The node obtained from `genesis_node` by accepting `fixture_block`. -/
def fixture_node : Node :=
  { blocks := [genesis_block, fixture_block]
    accounts := [(0, GENESIS_ACCOUNT),
                 (1, { address := 1, balance := 0, pub_key := 1111 })]
    pub_keys := [(0, 1234), (1, 1111)] }

set_option maxRecDepth 100000 in
/-- Accepting the mined fixture block on the genesis node succeeds and
produces `fixture_node`. -/
theorem fixture_step :
    try_add_block genesis_node fixture_block = some (true, fixture_node) := by
  decide

/-- C2 (witness): the atomicity theorem applied to the concrete accepted
fixture block on the genesis node. -/
theorem try_add_block_atomic_witness :
    try_add_block genesis_node fixture_block = some (true, fixture_node) ∧
    fixture_node.blocks = genesis_node.blocks ++ [fixture_block] ∧
    fixture_node.accounts =
      hm_insert genesis_node.accounts 1
        { address := 1, balance := 0, pub_key := 1111 } := by
  have main := (try_add_block_atomic genesis_node fixture_block).2
    fixture_node fixture_step
  exact ⟨fixture_step, main.1, (main.2.1 _ rfl).1⟩

/-- C4: `is_block_valid` runs its four checks in a fixed order with
short-circuiting — wrong linkage is reported before the stored hash is
even decoded (so an undecodable hash cannot panic then), then the
difficulty check, then the sequencing check, then the recomputed-hash
check; when all pass the block is valid. -/
theorem is_block_valid_checks (b p : Block) :
    (b.previous_hash ≠ p.hash →
      is_block_valid b p = some (some .wrong_previous_hash)) ∧
    (b.previous_hash = p.hash → hex_decode b.hash = none →
      is_block_valid b p = none) ∧
    (∀ bytes, b.previous_hash = p.hash → hex_decode b.hash = some bytes →
      string_starts_with (hash_to_binary_representation bytes)
        DIFFICULTY_STR = false →
      is_block_valid b p = some (some .invalid_difficulty)) ∧
    (∀ bytes, b.previous_hash = p.hash → hex_decode b.hash = some bytes →
      string_starts_with (hash_to_binary_representation bytes)
        DIFFICULTY_STR = true →
      b.id ≠ p.id + 1 →
      is_block_valid b p = some (some .wrong_id)) ∧
    (∀ bytes, b.previous_hash = p.hash → hex_decode b.hash = some bytes →
      string_starts_with (hash_to_binary_representation bytes)
        DIFFICULTY_STR = true →
      b.id = p.id + 1 →
      hex_encode (calculate_hash b.id b.timestamp b.previous_hash
        b.data b.nonce) ≠ b.hash →
      is_block_valid b p = some (some .invalid_hash)) ∧
    (∀ bytes, b.previous_hash = p.hash → hex_decode b.hash = some bytes →
      string_starts_with (hash_to_binary_representation bytes)
        DIFFICULTY_STR = true →
      b.id = p.id + 1 →
      hex_encode (calculate_hash b.id b.timestamp b.previous_hash
        b.data b.nonce) = b.hash →
      is_block_valid b p = some none) := by
  refine ⟨?_, ?_, ?_, ?_, ?_, ?_⟩
  · intro h1
    simp [is_block_valid, h1]
  · intro h1 h2
    simp [is_block_valid, h1, h2]
  · intro bytes h1 h2 h3
    simp [is_block_valid, h1, h2, h3]
  · intro bytes h1 h2 h3 h4
    simp [is_block_valid, h1, h2, h3, h4]
  · intro bytes h1 h2 h3 h4 h5
    have h5' : ¬ hex_encode (calculate_hash (p.id + 1) b.timestamp p.hash
        b.data b.nonce) = b.hash := by
      rw [← h1, ← h4]; exact h5
    simp [is_block_valid, h1, h2, h3, h4, h5']
  · intro bytes h1 h2 h3 h4 h5
    have h5' : hex_encode (calculate_hash (p.id + 1) b.timestamp p.hash
        b.data b.nonce) = b.hash := by
      rw [← h1, ← h4]; exact h5
    simp [is_block_valid, h1, h2, h3, h4, h5']

/-- C4 (witness block): wrong previous hash and a stored hash that is
not even valid hex. -/
def c4_block : Block :=
  { id := 1
    hash := "zz"
    previous_hash := "not-the-previous-hash"
    timestamp := 0
    data := .transfer 0 0 0 0
    nonce := 0 }

/-- C4 (witness): on a block with wrong linkage the first check fires and
short-circuits — the undecodable stored hash (`hex_decode = none`) is
never decoded, so no panic occurs. -/
theorem is_block_valid_checks_witness :
    is_block_valid c4_block genesis_block =
      some (some BlockError.wrong_previous_hash) ∧
    hex_decode c4_block.hash = none := by
  exact ⟨(is_block_valid_checks c4_block genesis_block).1 (by decide), by decide⟩

/-- C5: the fork-choice policy of `choose_chain` — both chains valid:
the longer wins and ties favour the local chain; exactly one valid: it
wins regardless of length; neither valid: the function panics. -/
theorem choose_chain_policy (loc rem : List Block) (lv rv : Bool)
    (hl : is_chain_valid loc = some lv) (hr : is_chain_valid rem = some rv) :
    (lv = true → rv = true → rem.length ≤ loc.length →
      choose_chain loc rem = some (some loc)) ∧
    (lv = true → rv = true → loc.length < rem.length →
      choose_chain loc rem = some (some rem)) ∧
    (lv = true → rv = false → choose_chain loc rem = some (some loc)) ∧
    (lv = false → rv = true → choose_chain loc rem = some (some rem)) ∧
    (lv = false → rv = false → choose_chain loc rem = some none) := by
  refine ⟨?_, ?_, ?_, ?_, ?_⟩
  · intro h1 h2 h3
    subst h1; subst h2
    simp [choose_chain, hl, hr, h3]
  · intro h1 h2 h3
    subst h1; subst h2
    have : ¬ rem.length ≤ loc.length := by omega
    simp [choose_chain, hl, hr, this]
  · intro h1 h2
    subst h1; subst h2
    simp [choose_chain, hl, hr]
  · intro h1 h2
    subst h1; subst h2
    simp [choose_chain, hl, hr]
  · intro h1 h2
    subst h1; subst h2
    simp [choose_chain, hl, hr]

/-- C5 (witness chain): an invalid two-block chain — the second block's
`previous_hash` does not match the genesis hash. -/
def bad_chain : List Block :=
  [genesis_block,
   { id := 1
     hash := "zz"
     previous_hash := "broken-link"
     timestamp := 0
     data := .transfer 0 0 0 0
     nonce := 0 }]

/-- C5 (witness): the policy theorem at concrete chains — a longer valid
remote beats a shorter valid local; a valid local beats a longer invalid
remote; two invalid chains panic. -/
theorem choose_chain_policy_witness :
    choose_chain [] [genesis_block] = some (some [genesis_block]) ∧
    choose_chain [genesis_block] bad_chain = some (some [genesis_block]) ∧
    choose_chain bad_chain bad_chain = some none := by
  refine ⟨?_, ?_, ?_⟩
  · exact (choose_chain_policy [] [genesis_block] true true
      (by decide) (by decide)).2.1 rfl rfl (by decide)
  · exact (choose_chain_policy [genesis_block] bad_chain true false
      (by decide) (by decide)).2.2.1 rfl rfl
  · exact (choose_chain_policy bad_chain bad_chain false false
      (by decide) (by decide)).2.2.2.2 rfl rfl

/-- C10: the empty chain is valid, and fork-choice on two empty chains
returns the (empty) local chain instead of reaching the fatal
both-invalid branch. -/
theorem empty_chain_trivial :
    is_chain_valid ([] : List Block) = some true ∧
    choose_chain [] [] = some (some ([] : List Block)) := by
  exact ⟨rfl, rfl⟩

/-- Any value returned by the mining loop satisfies the difficulty
predicate at the returned nonce, and the returned hash is the hex
encoding of the digest at that nonce. -/
theorem mine_block_from_spec (id : Nat) (ts : Int) (ph : String) (d : Data) :
    ∀ (fuel start nonce : Nat) (hhash : String),
      mine_block_from id ts ph d start fuel = some (nonce, hhash) →
      string_starts_with (hash_to_binary_representation
        (calculate_hash id ts ph d nonce)) DIFFICULTY_STR = true ∧
      hhash = hex_encode (calculate_hash id ts ph d nonce) := by
  intro fuel
  induction fuel with
  | zero =>
      intro start nonce hhash h
      simp [mine_block_from] at h
  | succ f ih =>
      intro start nonce hhash h
      simp only [mine_block_from] at h
      by_cases hc : string_starts_with (hash_to_binary_representation
          (calculate_hash id ts ph d start)) DIFFICULTY_STR
      · simp only [hc, if_true, Option.some.injEq, Prod.mk.injEq] at h
        obtain ⟨hnonce, hh⟩ := h
        subst hnonce
        subst hh
        exact ⟨hc, rfl⟩
      · simp only [hc, Bool.false_eq_true, if_false] at h
        exact ih (start + 1) nonce hhash h

/-- C7: whenever the mining loop returns `(nonce, hex_hash)` for inputs
`(id, timestamp, previous_hash, data)`, the assembled block passes
Validator step 2 (binary rendering of the decoded hash has the
difficulty prefix) and step 4 (recomputed hex hash equals the stored
hash); against any correct predecessor the whole validation succeeds. -/
theorem mine_block_pow (id : Nat) (ts : Int) (ph : String) (d : Data)
    (fuel nonce : Nat) (hhash : String)
    (h : mine_block id ts ph d fuel = some (nonce, hhash)) :
    hhash = hex_encode (calculate_hash id ts ph d nonce) ∧
    hex_decode hhash = some (calculate_hash id ts ph d nonce) ∧
    string_starts_with (hash_to_binary_representation
      (calculate_hash id ts ph d nonce)) DIFFICULTY_STR = true ∧
    (∀ prev : Block, prev.hash = ph → prev.id + 1 = id →
      is_block_valid
        { id := id, hash := hhash, previous_hash := ph, timestamp := ts,
          data := d, nonce := nonce } prev = some none) := by
  obtain ⟨hpow, hh⟩ := mine_block_from_spec id ts ph d fuel 0 nonce hhash h
  have hbytes : ∀ x ∈ calculate_hash id ts ph d nonce, x < 256 := by
    intro x hx
    exact sha256_bytes_lt _ x hx
  have hdec := hex_decode_encode (calculate_hash id ts ph d nonce) hbytes
  subst hh
  refine ⟨rfl, hdec, hpow, ?_⟩
  intro prev hph hid
  simp [is_block_valid, hph, hdec, hpow, hid]

set_option maxRecDepth 100000 in
/-- C7 (witness): at timestamp 1665548413 the loop succeeds at nonce 0
with the fixture hash, and the assembled block (the fixture block)
passes full validation against the genesis block. -/
theorem mine_block_pow_witness :
    mine_block 1 1665548413
      "aeebad4a796fcc2e15dc4c6061b45ed9b373f26adfc798ca7d2d8cc58182718e"
      (.account { address := 1, balance := 0, pub_key := 1111 }) 1 =
      some (0,
        "000093311ff0d03a2b7001daaff42c05637e9c926879b7b820050d4342f19d03") ∧
    string_starts_with (hash_to_binary_representation
      (calculate_hash 1 1665548413
        "aeebad4a796fcc2e15dc4c6061b45ed9b373f26adfc798ca7d2d8cc58182718e"
        (.account { address := 1, balance := 0, pub_key := 1111 }) 0))
      DIFFICULTY_STR = true ∧
    is_block_valid fixture_block genesis_block = some none := by
  have h : mine_block 1 1665548413
      "aeebad4a796fcc2e15dc4c6061b45ed9b373f26adfc798ca7d2d8cc58182718e"
      (.account { address := 1, balance := 0, pub_key := 1111 }) 1 =
      some (0,
        "000093311ff0d03a2b7001daaff42c05637e9c926879b7b820050d4342f19d03") := by
    decide
  have main := mine_block_pow 1 1665548413
    "aeebad4a796fcc2e15dc4c6061b45ed9b373f26adfc798ca7d2d8cc58182718e"
    (.account { address := 1, balance := 0, pub_key := 1111 }) 1 0
    "000093311ff0d03a2b7001daaff42c05637e9c926879b7b820050d4342f19d03" h
  exact ⟨h, main.2.2.1, main.2.2.2 genesis_block rfl rfl⟩

set_option maxRecDepth 100000 in
/-- C6 (counterexample): the hardcoded genesis block is in the canonical
chain right after `genesis()`, yet its stored hash is not the hex
encoding of the digest recomputed over its fields — the recomputation
yields `24e5bb3f…`, not the stored `aeebad4a…`. -/
theorem genesis_hash_counterexample :
    genesis_block ∈ genesis_node.blocks ∧
    hex_encode (calculate_hash genesis_block.id genesis_block.timestamp
      genesis_block.previous_hash genesis_block.data genesis_block.nonce) =
      "24e5bb3f1b95536efea9123c5b85084ccd932655deccbd41f5e61e87037a7f41" ∧
    "24e5bb3f1b95536efea9123c5b85084ccd932655deccbd41f5e61e87037a7f41" ≠
      genesis_block.hash := by
  refine ⟨by decide, by decide, by decide⟩

/-- C6 (amended): in every reachable node state, every block of the
canonical chain except the hardcoded genesis block at index 0 stores
exactly the hex encoding of the digest recomputed over its other
fields (the Validator's check 4 enforces this on append); the genesis
block itself violates the invariant. -/
theorem reachable_blocks_hash (n : Node) (hn : Reachable n) :
    ∀ b ∈ n.blocks.drop 1,
      hex_encode (calculate_hash b.id b.timestamp b.previous_hash
        b.data b.nonce) = b.hash := by
  induction hn with
  | refl =>
      intro b hb
      simp [genesis_node, genesis, Node.new] at hb
  | tail h1 h2 ih =>
      rename_i nb nc
      cases h2 with
      | acct account =>
          intro b hb
          exact ih b (by simpa [add_account] using hb)
      | blk block r n' hb' =>
          cases r with
          | false =>
              have heq := try_add_block_false_eq nb block nc hb'
              subst heq
              exact ih
          | true =>
              obtain ⟨hblocks, -, latest, hl, hv⟩ :=
                try_add_block_true_spec nb block nc hb'
              intro b hb
              rw [hblocks] at hb
              have hne : 1 ≤ nb.blocks.length := by
                rcases hli : nb.blocks with _ | _
                · rw [get_last_block, hli] at hl
                  cases hl
                · simp [hli]
              rw [List.drop_append_of_le_length hne] at hb
              rcases List.mem_append.mp hb with hmem | hmem
              · exact ih b hmem
              · have hbb : b = block := by simpa using hmem
                subst hbb
                exact is_block_valid_hash b latest hv
      | xfer d e n' hx =>
          have hbl := try_add_transfer_blocks nb d
          rw [hx] at hbl
          simp only [] at hbl
          intro b hbm
          rw [hbl] at hbm
          exact ih b hbm

/-- C6 (witness): the amended theorem applied to the reachable state
`fixture_node` and its appended block `fixture_block`. -/
theorem reachable_blocks_hash_witness :
    hex_encode (calculate_hash fixture_block.id fixture_block.timestamp
      fixture_block.previous_hash fixture_block.data fixture_block.nonce) =
      fixture_block.hash := by
  have hreach : Reachable fixture_node :=
    Relation.ReflTransGen.single
      (Step.blk genesis_node fixture_block true fixture_node fixture_step)
  exact reachable_blocks_hash fixture_node hreach fixture_block (by decide)

/-- C8 (counterexample): byte value 0 renders as `"0"` under
`format!("{:b}", _)`, not as the empty string claimed by the spec. -/
theorem byte_zero_rendering_counterexample :
    byte_to_binary 0 = "0" ∧ byte_to_binary 0 ≠ "" ∧
    hash_to_binary_representation [0] = "0" := by
  refine ⟨by decide, by decide, by decide⟩

set_option maxRecDepth 100000 in
/-- C8 (amended): the rendering concatenates per-byte `format!("{:b}")`
strings — no zero-padding, byte 1 renders as `"1"`, byte 0 renders as
`"0"` (one character, not empty), every nonzero byte's rendering starts
with `'1'`, and an all-zero 32-byte digest renders as 32 `'0'`
characters, which does satisfy the difficulty prefix `"00"`. -/
theorem byte_binary_rendering :
    byte_to_binary 1 = "1" ∧ byte_to_binary 0 = "0" ∧
    (∀ b, b < 256 → 0 < b → (byte_to_binary b).data.head? = some '1') ∧
    (∀ b bytes, hash_to_binary_representation (b :: bytes) =
      byte_to_binary b ++ hash_to_binary_representation bytes) ∧
    hash_to_binary_representation (List.replicate 32 0) =
      String.mk (List.replicate 32 '0') ∧
    string_starts_with (hash_to_binary_representation (List.replicate 32 0))
      DIFFICULTY_STR = true := by
  refine ⟨by decide, by decide, by decide, ?_, by decide, by decide⟩
  intro b bytes
  simp only [hash_to_binary_representation, byte_to_binary, List.flatMap_cons]
  rfl

/-- C8 (witness): the amended rendering theorem at byte 5 and at the
one-byte list `[2]`. -/
theorem byte_binary_rendering_witness :
    (byte_to_binary 5).data.head? = some '1' ∧
    hash_to_binary_representation [2] =
      byte_to_binary 2 ++ hash_to_binary_representation [] := by
  exact ⟨byte_binary_rendering.2.2.1 5 (by decide) (by decide),
         byte_binary_rendering.2.2.2.1 2 []⟩

/-! ## Key agreement between the two ledger maps (C9) -/

/-- The accounts map and the public-key registry agree: same key set,
and each registered account's `pub_key` field matches its registry
entry. -/
def key_agree (n : Node) : Prop :=
  ∀ a, ((hm_get n.accounts a).isSome ↔ (hm_get n.pub_keys a).isSome) ∧
    (∀ acc, hm_get n.accounts a = some acc →
      hm_get n.pub_keys a = some acc.pub_key)

theorem key_agree_update (n n' : Node) (acc : Account)
    (hacc : n'.accounts = hm_insert n.accounts acc.address acc)
    (hpk : n'.pub_keys = hm_insert n.pub_keys acc.address acc.pub_key)
    (h : key_agree n) : key_agree n' := by
  intro a
  have hg : hm_get n'.accounts a =
      if acc.address = a then some acc else hm_get n.accounts a := by
    rw [hacc, hm_get_insert]
  have hgp : hm_get n'.pub_keys a =
      if acc.address = a then some acc.pub_key else hm_get n.pub_keys a := by
    rw [hpk, hm_get_insert]
  by_cases ha : acc.address = a
  · rw [hg, hgp, if_pos ha, if_pos ha]
    refine ⟨by simp, ?_⟩
    intro acc' heq
    injection heq with heq
    subst heq
    rfl
  · rw [hg, hgp, if_neg ha, if_neg ha]
    exact h a

theorem key_agree_transfer (n : Node) (d : Data) (e : Option TransferError)
    (n' : Node) (hx : try_add_transfer n d = (e, n')) (h : key_agree n) :
    key_agree n' := by
  cases e with
  | some err => rw [try_add_transfer_fail_eq n d err n' hx]; exact h
  | none =>
      cases d with
      | account a => simp [try_add_transfer] at hx
      | transfer s r amt sig =>
          obtain ⟨pk, acc1, acc2, hpk, hv, h1, h2, hbal, hn'⟩ :=
            try_add_transfer_ok n s r amt sig n' hx
          subst hn'
          intro a
          dsimp only
          rw [hm_get_insert, hm_get_insert]
          by_cases hra : r = a
          · rw [if_pos hra]
            subst hra
            have hp := (h r).2 acc2 h2
            exact ⟨by simp [hp], fun acc heq => by
              injection heq with heq; subst heq; exact hp⟩
          · rw [if_neg hra]
            by_cases hsa : s = a
            · rw [if_pos hsa]
              subst hsa
              have hp := (h s).2 acc1 h1
              exact ⟨by simp [hp], fun acc heq => by
                injection heq with heq; subst heq; exact hp⟩
            · rw [if_neg hsa]
              exact h a

theorem key_agree_block (n : Node) (b : Block) (r : Bool) (n' : Node)
    (h : try_add_block n b = some (r, n')) (hk : key_agree n) :
    key_agree n' := by
  cases r with
  | false => rw [try_add_block_false_eq n b n' h]; exact hk
  | true =>
      obtain ⟨-, hpayload, -⟩ := try_add_block_true_spec n b n' h
      rcases hpayload with ⟨a, -, hacc, hpk⟩ | ⟨m, hm, hacc, hpk⟩
      · exact key_agree_update n n' a hacc hpk hk
      · have hkm : key_agree m := key_agree_transfer n b.data none m hm hk
        intro x
        rw [hacc, hpk]
        exact hkm x

theorem key_agree_genesis : key_agree genesis_node := by
  intro a
  have hACC : hm_get genesis_node.accounts a =
      if 0 = a then some GENESIS_ACCOUNT else none := by
    simp [genesis_node, genesis, Node.new, hm_insert, hm_get]
  have hPK : hm_get genesis_node.pub_keys a =
      if 0 = a then some 1234 else none := by
    simp [genesis_node, genesis, Node.new, hm_insert, hm_get]
  rw [hACC, hPK]
  by_cases h0 : 0 = a
  · rw [if_pos h0, if_pos h0]
    exact ⟨by simp, fun acc heq => by
      injection heq with heq; subst heq; rfl⟩
  · rw [if_neg h0, if_neg h0]
    exact ⟨by simp, fun acc heq => Option.noConfusion heq⟩

/-- C9: from a freshly `genesis()`-ed node, any sequence of
`add_account`, `try_add_block` and `try_add_transfer` operations keeps
the accounts map and the pub_keys map on exactly the same key set, with
each registry entry equal to the account's `pub_key` field. -/
theorem reachable_key_agreement (n : Node) (hn : Reachable n) :
    key_agree n := by
  induction hn with
  | refl => exact key_agree_genesis
  | tail h1 h2 ih =>
      rename_i nb nc
      cases h2 with
      | acct account => exact key_agree_update nb _ account rfl rfl ih
      | blk block r n' hb' => exact key_agree_block nb block r nc hb' ih
      | xfer d e n' hx => exact key_agree_transfer nb d e nc hx ih

/-- C9 (witness): the invariant theorem at the genesis node and
address 0. -/
theorem reachable_key_agreement_witness :
    ((hm_get genesis_node.accounts 0).isSome ↔
      (hm_get genesis_node.pub_keys 0).isSome) ∧
    hm_get genesis_node.pub_keys 0 = some GENESIS_ACCOUNT.pub_key := by
  have main := reachable_key_agreement genesis_node Relation.ReflTransGen.refl
  exact ⟨(main 0).1, (main 0).2 GENESIS_ACCOUNT (by decide)⟩
